import Mathlib

/-!
Verification development for the `pgproto` SQL semantic-validation pass.

The Go source (`parse.go` of `github.com/crewlinker/pgproto`) is shallowly
embedded below.  Go strings are modelled as Lean `String`s (the operations
used — last index of the single-byte character `'_'`, the suffix after it,
and base-10 integer parsing — coincide on the byte and character views).
Go `int` is modelled as `Int` with the 64-bit range check made explicit
where `strconv.Atoi` performs it.  Go's `error` values are modelled by the
inductive `Err` tree: `errors.Join` becomes `Err.join`, the
`fmt.Errorf("statement@%d: %w", ...)` / `fmt.Errorf("result_target@%d: %w", ...)`
wrappers become `Err.stmt` / `Err.resTarget`, and the sentinel errors with
their formatted message arguments become `BaseErr` constructors carrying
those arguments.  `errors.Join(nil, e)` is modelled as `e` itself (the
single-element join wrapper is observationally identical).

The external grammar parser (`pgquery.Parse`) is out of scope and appears
as an oracle argument to `ParseFullTyped`.  AST shapes that the Go code
turns into panics (missing result target, missing value, non-string cast
name segments) are internal-consistency violations outside the recoverable
taxonomy and are not represented: `ResTarget` models exactly the
observations the validation logic makes (alias string, node location,
optional cast-name segment list).
-/

namespace Pgproto

/-- `TypeRef` references a type (Go struct `TypeRef{Schema *string; Name string}`). -/
structure TypeRef where
  schema : Option String
  name : String
  deriving Repr, DecidableEq

/-- `Output` describes the output from an action
(Go struct `Output{Number int; Name string; Type TypeRef}`). -/
structure Output where
  number : Int
  name : String
  type : TypeRef
  deriving Repr, DecidableEq

/-- Sentinel errors of the package, with the arguments that
`fmt.Errorf` would interpolate into the surrounding message. -/
inductive BaseErr where
  /-- `ErrNoColumnAliasUsed` -/
  | noColumnAliasUsed
  /-- `ErrColumnWithoutCast`, wrapped as `"alias '%s': %w"` -/
  | columnWithoutCast (aliasName : String)
  /-- `ErrTypeCastInvalid`, wrapped as `"alias '%s': %w, number of parts: %d"` -/
  | typeCastInvalid (aliasName : String) (nparts : Nat)
  /-- `ErrNamedWithoutNumberSuffix` -/
  | namedWithoutNumberSuffix
  /-- `ErrInvalidNumberSuffix` -/
  | invalidNumberSuffix
  /-- `ErrDuplicateNumberSuffix`, wrapped as `"%w, %d is already used by: %s"` -/
  | duplicateNumberSuffix (number : Int) (existingName : String)
  /-- `stmtErrorf(rstmt, "only support SELECT, INSERT, UPDATE or DELETE statements")` -/
  | unsupportedStatement
  /-- `fmt.Errorf("failed to parse: %w", err)` around a `pgquery.Parse` failure -/
  | grammarFailure (msg : String)
  deriving Repr, DecidableEq

/-- Structured error values: sentinel leaves, positional wrappers and joins. -/
inductive Err where
  /-- a sentinel error (possibly with message arguments) -/
  | base (e : BaseErr)
  /-- `resTargetErrorf`: `fmt.Errorf("result_target@%d: %w", rstmt.GetLocation(), ...)` -/
  | resTarget (location : Int) (e : Err)
  /-- `stmtErrorf`: `fmt.Errorf("statement@%d: %w", rstmt.GetStmtLocation(), ...)` -/
  | stmt (location : Int) (e : Err)
  /-- `errors.Join` of two non-nil errors -/
  | join (a b : Err)
  deriving Repr, DecidableEq

/-- `err = errors.Join(err, perr)` where `err` may still be nil (`none`). -/
def errJoin : Option Err → Err → Option Err
  | none, e => some e
  | some a, e => some (.join a e)

/-- Index of the last occurrence of `c` (Go `strings.LastIndex(name, "_")`,
with `none` for Go's `-1`). -/
def lastIndexOf : List Char → Char → Option Nat
  | [], _ => none
  | x :: xs, c =>
    match lastIndexOf xs c with
    | some i => some (i + 1)
    | none => if x = c then some 0 else none

/-- Value of a decimal digit character. -/
def digitVal (c : Char) : Option Nat :=
  if '0' ≤ c ∧ c ≤ '9' then some (c.toNat - '0'.toNat) else none

/-- Accumulate a base-10 digit string (`none` on any non-digit). -/
def parseDigitsAux (acc : Nat) : List Char → Option Nat
  | [] => some acc
  | c :: cs =>
    match digitVal c with
    | none => none
    | some d => parseDigitsAux (acc * 10 + d) cs

/-- Model of Go `strconv.Atoi`: optional single `+`/`-` sign, then one or
more base-10 digits, with the 64-bit `int` range check (`ErrRange` on
overflow is an error like any other to the caller). -/
def goAtoi (s : String) : Option Int :=
  match s.data with
  | [] => none
  | c :: cs =>
    let signed : Bool × List Char :=
      if c = '-' then (true, cs) else if c = '+' then (false, cs) else (false, c :: cs)
    match signed.2 with
    | [] => none
    | ds =>
      match parseDigitsAux 0 ds with
      | none => none
      | some n =>
        let v : Int := if signed.1 then -(n : Int) else (n : Int)
        if v < -9223372036854775808 ∨ 9223372036854775807 < v then none else some v

/-- `numberedName` extracts the number at the end of a string separated by
an underscore (Go function `numberedName`). -/
def numberedName (name : String) : Except BaseErr Int :=
  match lastIndexOf name.data '_' with
  | none => .error .namedWithoutNumberSuffix
  | some lastUnderscore =>
    if lastUnderscore = name.data.length - 1 then .error .namedWithoutNumberSuffix
    else
      match goAtoi ⟨name.data.drop (lastUnderscore + 1)⟩ with
      | none => .error .namedWithoutNumberSuffix
      | some num =>
        if num < 1 then .error .invalidNumberSuffix
        else .ok num

/-- One output-bearing node (`pgquery.ResTarget`), as observed by the
validation logic: `GetName()` (the alias, `""` when absent), `GetLocation()`,
and — when `GetVal().GetTypeCast()` is non-nil — the ordered list of string
values of the cast's `TypeName.Names` segments. -/
structure ResTarget where
  name : String
  location : Int
  cast : Option (List String)
  deriving Repr, DecidableEq

/-- `parseResultTarget`: validates one output node and produces one `Output`. -/
def parseResultTarget (rtgt : ResTarget) : Except Err Output :=
  if rtgt.name = "" then
    .error (.resTarget rtgt.location (.base .noColumnAliasUsed))
  else
    match numberedName rtgt.name with
    | .error e => .error (.resTarget rtgt.location (.base e))
    | .ok num =>
      match rtgt.cast with
      | none =>
        .error (.resTarget rtgt.location (.base (.columnWithoutCast rtgt.name)))
      | some typeNameParts =>
        match typeNameParts with
        | [tn] => .ok ⟨num, rtgt.name, ⟨none, tn⟩⟩
        | [schemaStr, tn] => .ok ⟨num, rtgt.name, ⟨some schemaStr, tn⟩⟩
        | _ =>
          .error (.resTarget rtgt.location
            (.base (.typeCastInvalid rtgt.name typeNameParts.length)))

/-- The loop body shared verbatim by `parseSelectStmt`, `parseInsertStmt`,
`parseUpdateStmt` and `parseDeleteStmt`: parse each item in order,
appending successes to `Outputs` and folding failures with `errors.Join`. -/
def parseTargetListAux (acc : List Output × Option Err) :
    List ResTarget → List Output × Option Err
  | [] => acc
  | t :: ts =>
    match parseResultTarget t with
    | .error perr => parseTargetListAux (acc.1, errJoin acc.2 perr) ts
    | .ok output => parseTargetListAux (acc.1 ++ [output], acc.2) ts

/-- Outputs and joined error produced from one statement's output-bearing list. -/
def parseTargetList (ts : List ResTarget) : List Output × Option Err :=
  parseTargetListAux ([], none) ts

/-- `Action` describes an action we support (the closed variant over the
four Go structs `SelectAction`/`InsertAction`/`UpdateAction`/`DeleteAction`). -/
inductive Action where
  | select (outputs : List Output)
  | insert (outputs : List Output)
  | update (outputs : List Output)
  | delete (outputs : List Output)
  deriving Repr, DecidableEq

/-- `getOutputs` of the `Action` interface. -/
def Action.getOutputs : Action → List Output
  | .select outputs => outputs
  | .insert outputs => outputs
  | .update outputs => outputs
  | .delete outputs => outputs

/-- `parseSelectStmt` over the statement's `GetTargetList()`. -/
def parseSelectStmt (targetList : List ResTarget) : Action × Option Err :=
  (.select (parseTargetList targetList).1, (parseTargetList targetList).2)

/-- `parseInsertStmt` over the statement's `GetReturningList()`. -/
def parseInsertStmt (returningList : List ResTarget) : Action × Option Err :=
  (.insert (parseTargetList returningList).1, (parseTargetList returningList).2)

/-- `parseUpdateStmt` over the statement's `GetReturningList()`.  Unlike its
three siblings, which end with a bare `return` of the named results, the Go
function ends with `return action, nil`: the accumulated column errors are
discarded and only the successfully parsed outputs are reported, with no
error.  The second component is therefore always `none`. -/
def parseUpdateStmt (returningList : List ResTarget) : Action × Option Err :=
  (.update (parseTargetList returningList).1, none)

/-- `parseDeleteStmt` over the statement's `GetReturningList()`. -/
def parseDeleteStmt (returningList : List ResTarget) : Action × Option Err :=
  (.delete (parseTargetList returningList).1, (parseTargetList returningList).2)

/-- The scan of `checkAction`: `outputsByNumber` is the Go map, as the
association list of entries in insertion order (newest first; all keys
distinct, so lookup order is immaterial). -/
def checkActionAux (outputsByNumber : List (Int × Output)) :
    List Output → Option Err
  | [] => none
  | output :: rest =>
    match outputsByNumber.find? (fun p => p.1 == output.number) with
    | some existing =>
      some (.base (.duplicateNumberSuffix output.number existing.2.name))
    | none => checkActionAux ((output.number, output) :: outputsByNumber) rest

/-- `checkAction`: rejects duplicate `Number` values among an action's outputs. -/
def checkAction (action : Action) : Option Err :=
  checkActionAux [] action.getOutputs

/-- The statement kinds distinguished by `parseStmt`'s dispatch: one
constructor per supported `pgquery` statement struct, carrying the
output-bearing list the code reads from it, and `other` for every
statement kind that falls into the `default` branch. -/
inductive StmtKind where
  | selectStmt (targetList : List ResTarget)
  | insertStmt (returningList : List ResTarget)
  | updateStmt (returningList : List ResTarget)
  | deleteStmt (returningList : List ResTarget)
  | other
  deriving Repr, DecidableEq

/-- One top-level statement (`pgquery.RawStmt`): its inner statement and
its `GetStmtLocation()` offset. -/
structure RawStmt where
  stmt : StmtKind
  stmtLocation : Int
  deriving Repr, DecidableEq

/-- `parseStmt`: dispatch on the statement kind, build the per-kind action,
fail on accumulated column errors, then on a duplicate-number check. -/
def parseStmt (rstmt : RawStmt) : Except Err Action :=
  let dispatched : Option (Action × Option Err) :=
    match rstmt.stmt with
    | .selectStmt targetList => some (parseSelectStmt targetList)
    | .insertStmt returningList => some (parseInsertStmt returningList)
    | .updateStmt returningList => some (parseUpdateStmt returningList)
    | .deleteStmt returningList => some (parseDeleteStmt returningList)
    | .other => none
  match dispatched with
  | none => .error (.stmt rstmt.stmtLocation (.base .unsupportedStatement))
  | some (_, some err) => .error (.stmt rstmt.stmtLocation err)
  | some (action, none) =>
    match checkAction action with
    | some err => .error (.stmt rstmt.stmtLocation err)
    | none => .ok action

/-- The external grammar parser `pgquery.Parse`, as an oracle: for a given
input buffer it either reports a syntax error (message) or yields the
top-level statements (`result.GetStmts()`). -/
def PgqueryParse : Type := String → Except String (List RawStmt)

/-- The statement loop of `ParseFullTyped`: successes are appended to
`actions`, failures folded into the joined error. -/
def parseStmtsAux (acc : List Action × Option Err) :
    List RawStmt → List Action × Option Err
  | [] => acc
  | rstmt :: rest =>
    match parseStmt rstmt with
    | .error perr => parseStmtsAux (acc.1, errJoin acc.2 perr) rest
    | .ok action => parseStmtsAux (acc.1 ++ [action], acc.2) rest

/-- `ParseFullTyped` parses the input SQL into one or more actions,
given the external grammar parser `pgqueryParse`.  A grammar failure is
returned immediately (nil actions); otherwise every statement is parsed
independently and failures are joined. -/
def ParseFullTyped (pgqueryParse : PgqueryParse) (input : String) :
    List Action × Option Err :=
  match pgqueryParse input with
  | .error msg => ([], some (.base (.grammarFailure msg)))
  | .ok stmts => parseStmtsAux ([], none) stmts

/-! Helper definitions used only to state and prove properties. -/

/-- The output a node contributes when it parses successfully. -/
def okOf (t : ResTarget) : Option Output :=
  match parseResultTarget t with
  | .ok o => some o
  | .error _ => none

/-- The error a node contributes when it fails. -/
def errOf (t : ResTarget) : Option Err :=
  match parseResultTarget t with
  | .ok _ => none
  | .error e => some e

/-- The action a statement contributes when it parses successfully. -/
def stmtOkOf (r : RawStmt) : Option Action :=
  match parseStmt r with
  | .ok a => some a
  | .error _ => none

/-- The error a statement contributes when it fails. -/
def stmtErrOf (r : RawStmt) : Option Err :=
  match parseStmt r with
  | .ok _ => none
  | .error e => some e

/-- Fold a list of errors with `errors.Join` starting from nil,
exactly as the accumulation loops do. -/
def joinAll (es : List Err) : Option Err :=
  es.foldl errJoin none

/-- The dispatch table of `parseStmt`'s switch: for a supported statement
kind, the output-bearing list the code reads and the `Action` constructor
it builds; `none` for the `default` branch. -/
def StmtKind.dispatch : StmtKind → Option (List ResTarget × (List Output → Action))
  | .selectStmt targetList => some (targetList, .select)
  | .insertStmt returningList => some (returningList, .insert)
  | .updateStmt returningList => some (returningList, .update)
  | .deleteStmt returningList => some (returningList, .delete)
  | .other => none

/-- The statement-level error each per-kind parse function reports to
`parseStmt`: the joined column failures for Select, Insert and Delete, and
always `none` for Update, whose Go implementation discards them
(`return action, nil`). -/
def StmtKind.reportedErr : StmtKind → Option Err
  | .selectStmt targetList => (parseTargetList targetList).2
  | .insertStmt returningList => (parseTargetList returningList).2
  | .updateStmt _ => none
  | .deleteStmt returningList => (parseTargetList returningList).2
  | .other => none

/-! Lemmas about the number-suffix parser. -/

lemma lastIndexOf_eq_none_iff (cs : List Char) (c : Char) :
    lastIndexOf cs c = none ↔ c ∉ cs := by
  induction cs with
  | nil => simp [lastIndexOf]
  | cons x xs ih =>
    cases h : lastIndexOf xs c with
    | none =>
      have hx : c ∉ xs := ih.mp h
      simp only [lastIndexOf, h]
      by_cases hxc : x = c
      · simp [hxc, hx]
      · simp only [if_neg hxc, List.mem_cons, true_iff]
        exact fun hc => hc.elim (fun hce => hxc hce.symm) hx
    | some i =>
      have hx : c ∈ xs := by
        by_contra hc
        rw [ih.mpr hc] at h
        exact Option.noConfusion h
      simp [lastIndexOf, h, hx]

lemma lastIndexOf_append_cons (pre tail : List Char) (c : Char) (h : c ∉ tail) :
    lastIndexOf (pre ++ c :: tail) c = some pre.length := by
  induction pre with
  | nil =>
    simp only [List.nil_append, lastIndexOf, (lastIndexOf_eq_none_iff tail c).mpr h,
      List.length_nil]
    simp
  | cons x pre ih =>
    have hstep : lastIndexOf (x :: (pre ++ c :: tail)) c =
        match lastIndexOf (pre ++ c :: tail) c with
        | some i => some (i + 1)
        | none => if x = c then some 0 else none := rfl
    rw [List.cons_append, hstep, ih]
    simp

lemma numberedName_eq_of_split (name : String) (pre tail : List Char)
    (hsplit : name.data = pre ++ '_' :: tail) (htail : '_' ∉ tail) :
    numberedName name =
      if tail = [] then .error .namedWithoutNumberSuffix
      else
        match goAtoi ⟨tail⟩ with
        | none => .error .namedWithoutNumberSuffix
        | some num =>
          if num < 1 then .error .invalidNumberSuffix else .ok num := by
  unfold numberedName
  rw [hsplit, lastIndexOf_append_cons pre tail _ htail]
  have hlen : (pre ++ '_' :: tail).length - 1 = pre.length + tail.length := by
    simp [List.length_append]
  have hdrop : (pre ++ '_' :: tail).drop (pre.length + 1) = tail := by
    have : pre ++ '_' :: tail = (pre ++ ['_']) ++ tail := by simp
    rw [this, show pre.length + 1 = (pre ++ ['_']).length by simp]
    exact List.drop_left _ _
  by_cases h0 : tail = []
  · subst h0
    simp [hlen]
  · have : pre.length ≠ (pre ++ '_' :: tail).length - 1 := by
      rw [hlen]
      have : tail.length ≠ 0 := fun hc => h0 (List.length_eq_zero.mp hc)
      omega
    simp only [this, if_neg, if_false, hdrop, h0]

lemma numberedName_ok_pos (s : String) (n : Int) (h : numberedName s = .ok n) :
    1 ≤ n := by
  unfold numberedName at h
  split at h
  · exact Except.noConfusion h
  · split at h
    · exact Except.noConfusion h
    · split at h
      · exact Except.noConfusion h
      · split at h
        · exact Except.noConfusion h
        · rename_i hlt
          cases h
          omega

/-! Lemmas about the result-target parser and the per-statement loops. -/

lemma parseResultTarget_ok_inv (t : ResTarget) (o : Output)
    (h : parseResultTarget t = .ok o) :
    o.name = t.name ∧ numberedName t.name = .ok o.number ∧ 1 ≤ o.number := by
  unfold parseResultTarget at h
  split at h
  · exact Except.noConfusion h
  · split at h
    · exact Except.noConfusion h
    · rename_i num hnum
      split at h
      · exact Except.noConfusion h
      · split at h
        · cases h
          exact ⟨rfl, hnum, numberedName_ok_pos _ _ hnum⟩
        · cases h
          exact ⟨rfl, hnum, numberedName_ok_pos _ _ hnum⟩
        · exact Except.noConfusion h

lemma parseTargetListAux_eq (ts : List ResTarget) :
    ∀ acc : List Output × Option Err,
      parseTargetListAux acc ts =
        (acc.1 ++ ts.filterMap okOf, (ts.filterMap errOf).foldl errJoin acc.2) := by
  induction ts with
  | nil => intro acc; simp [parseTargetListAux]
  | cons t ts ih =>
    intro acc
    cases h : parseResultTarget t with
    | error e =>
      have hok : okOf t = none := by simp [okOf, h]
      have herr : errOf t = some e := by simp [errOf, h]
      simp only [parseTargetListAux, h, ih, List.filterMap_cons, hok, herr,
        List.foldl_cons]
    | ok o =>
      have hok : okOf t = some o := by simp [okOf, h]
      have herr : errOf t = none := by simp [errOf, h]
      simp only [parseTargetListAux, h, ih, List.filterMap_cons, hok, herr,
        List.append_assoc, List.singleton_append]

lemma parseTargetList_eq (ts : List ResTarget) :
    parseTargetList ts = (ts.filterMap okOf, joinAll (ts.filterMap errOf)) := by
  rw [parseTargetList, parseTargetListAux_eq]
  rfl

lemma foldl_errJoin_some (es : List Err) (a : Err) :
    ∃ b, es.foldl errJoin (some a) = some b := by
  induction es generalizing a with
  | nil => exact ⟨a, rfl⟩
  | cons e es ih => exact ih (.join a e)

lemma joinAll_eq_none_iff (es : List Err) : joinAll es = none ↔ es = [] := by
  cases es with
  | nil => simp [joinAll]
  | cons e es =>
    simp only [joinAll, List.foldl_cons]
    obtain ⟨b, hb⟩ := foldl_errJoin_some es e
    simp [errJoin, hb]

lemma parseTargetList_mem_ok (ts : List ResTarget) (o : Output)
    (ho : o ∈ (parseTargetList ts).1) :
    ∃ t ∈ ts, parseResultTarget t = .ok o := by
  rw [parseTargetList_eq] at ho
  obtain ⟨t, ht, hok⟩ := List.mem_filterMap.mp ho
  refine ⟨t, ht, ?_⟩
  unfold okOf at hok
  split at hok
  · rename_i o2 h2
    cases hok
    exact h2
  · exact Option.noConfusion hok

lemma parseTargetList_no_err_iff (ts : List ResTarget) :
    (parseTargetList ts).2 = none ↔ ∀ t ∈ ts, ∃ o, parseResultTarget t = .ok o := by
  rw [parseTargetList_eq]
  simp only [joinAll_eq_none_iff, List.filterMap_eq_nil_iff]
  constructor
  · intro h t ht
    have := h t ht
    unfold errOf at this
    split at this
    · rename_i o ho
      exact ⟨o, ho⟩
    · exact Option.noConfusion this
  · intro h t ht
    obtain ⟨o, ho⟩ := h t ht
    simp [errOf, ho]

/-! Lemmas about the duplicate-number validator. -/

lemma find?_assoc_of_nodup (l : List (Int × Output)) (k : Int) (v : Output)
    (hnodup : (l.map Prod.fst).Nodup) (hmem : (k, v) ∈ l) :
    l.find? (fun p => p.1 == k) = some (k, v) := by
  induction l with
  | nil => exact absurd hmem (List.not_mem_nil _)
  | cons hd tl ih =>
    by_cases hk : hd.1 = k
    · have hhd : hd = (k, v) := by
        rcases List.mem_cons.mp hmem with h | h
        · exact h.symm
        · exfalso
          have : k ∈ tl.map Prod.fst := List.mem_map.mpr ⟨(k, v), h, rfl⟩
          rw [← hk] at this
          exact (List.nodup_cons.mp hnodup).1 this
      rw [List.find?_cons_of_pos _ (by simp [hk])]
      rw [hhd]
    · rw [List.find?_cons_of_neg _ (by simp [hk])]
      have hmem2 : (k, v) ∈ tl := by
        rcases List.mem_cons.mp hmem with h | h
        · exact absurd (congrArg Prod.fst h.symm) hk
        · exact h
      exact ih (List.nodup_cons.mp hnodup).2 hmem2

lemma checkActionAux_eq_none_iff (outs : List Output) :
    ∀ seen : List (Int × Output),
      checkActionAux seen outs = none ↔
        (outs.map Output.number).Nodup ∧
          ∀ o ∈ outs, o.number ∉ seen.map Prod.fst := by
  induction outs with
  | nil => intro seen; simp [checkActionAux]
  | cons o rest ih =>
    intro seen
    cases hfind : seen.find? (fun p => p.1 == o.number) with
    | some existing =>
      have : o.number ∈ seen.map Prod.fst := by
        have hmem := List.mem_of_find?_eq_some hfind
        have hp := List.find?_some hfind
        have : existing.1 = o.number := by simpa using hp
        exact List.mem_map.mpr ⟨existing, hmem, this⟩
      simp only [checkActionAux, hfind]
      constructor
      · intro hc
        exact Option.noConfusion hc
      · rintro ⟨_, hall⟩
        exact absurd this (hall o (List.mem_cons_self o rest))
    | none =>
      have hnotin : o.number ∉ seen.map Prod.fst := by
        intro hc
        obtain ⟨p, hp, hpk⟩ := List.mem_map.mp hc
        have := List.find?_eq_none.mp hfind p hp
        simp [hpk] at this
      simp only [checkActionAux, hfind, ih]
      constructor
      · rintro ⟨hnd, hall⟩
        have hohead : o.number ∉ rest.map Output.number := by
          intro hc
          obtain ⟨r, hr, hrk⟩ := List.mem_map.mp hc
          have := hall r hr
          simp [hrk] at this
        refine ⟨List.nodup_cons.mpr ⟨hohead, hnd⟩, ?_⟩
        intro x hx
        rcases List.mem_cons.mp hx with h | h
        · exact h ▸ hnotin
        · have := hall x h
          simp only [List.map_cons, List.mem_cons] at this
          exact fun hc => this (Or.inr hc)
      · rintro ⟨hnd, hall⟩
        have hnd2 := List.nodup_cons.mp ((List.map_cons Output.number o rest) ▸ hnd)
        refine ⟨hnd2.2, ?_⟩
        intro x hx
        simp only [List.map_cons, List.mem_cons]
        rintro (hc | hc)
        · exact hnd2.1 (hc ▸ List.mem_map.mpr ⟨x, hx, rfl⟩)
        · exact hall x (List.mem_cons_of_mem o hx) hc

lemma checkActionAux_append (pre : List Output) :
    ∀ (seen : List (Int × Output)) (rest : List Output),
      (∀ x ∈ pre, x.number ∉ seen.map Prod.fst) →
      (pre.map Output.number).Nodup →
      checkActionAux seen (pre ++ rest) =
        checkActionAux (pre.reverse.map (fun x => (x.number, x)) ++ seen) rest := by
  induction pre with
  | nil => intro seen rest _ _; simp
  | cons x pre ih =>
    intro seen rest hnotin hnd
    have hfind : seen.find? (fun p => p.1 == x.number) = none := by
      rw [List.find?_eq_none]
      intro p hp
      simp only [beq_iff_eq]
      intro hc
      exact hnotin x (List.mem_cons_self x pre) (List.mem_map.mpr ⟨p, hp, hc⟩)
    have hnd2 := List.nodup_cons.mp ((List.map_cons Output.number x pre) ▸ hnd)
    have hstep : checkActionAux seen ((x :: pre) ++ rest) =
        checkActionAux ((x.number, x) :: seen) (pre ++ rest) := by
      simp only [List.cons_append, checkActionAux, hfind]
      rfl
    rw [hstep, ih ((x.number, x) :: seen) rest ?_ hnd2.2]
    · congr 1
      simp [List.reverse_cons]
    · intro y hy
      simp only [List.map_cons, List.mem_cons]
      rintro (hc | hc)
      · exact hnd2.1 (hc ▸ List.mem_map.mpr ⟨y, hy, rfl⟩)
      · exact hnotin y (List.mem_cons_of_mem x hy) hc

lemma checkAction_eq_none_iff (a : Action) :
    checkAction a = none ↔ (a.getOutputs.map Output.number).Nodup := by
  rw [checkAction, checkActionAux_eq_none_iff]
  simp

lemma checkAction_first_dup (a : Action) (pre rest : List Output) (o p : Output)
    (houts : a.getOutputs = pre ++ o :: rest)
    (hpre : (pre.map Output.number).Nodup)
    (hp : p ∈ pre) (hpn : p.number = o.number) :
    checkAction a = some (.base (.duplicateNumberSuffix o.number p.name)) := by
  rw [checkAction, houts,
    checkActionAux_append pre [] (o :: rest) (by simp) hpre, List.append_nil]
  have hkeys : ∀ l : List Output,
      (l.map (fun x => (x.number, x))).map Prod.fst = l.map Output.number := by
    intro l
    rw [List.map_map]
    rfl
  have hnodupkeys : ((pre.reverse.map (fun x => (x.number, x))).map Prod.fst).Nodup := by
    rw [hkeys, List.map_reverse]
    exact List.nodup_reverse.mpr hpre
  have hmem : (o.number, p) ∈ pre.reverse.map (fun x => (x.number, x)) :=
    List.mem_map.mpr ⟨p, List.mem_reverse.mpr hp, by simp [hpn]⟩
  have hfind := find?_assoc_of_nodup _ o.number p hnodupkeys hmem
  simp only [checkActionAux, hfind]

/-! Lemmas about statement dispatch and the top-level entry point. -/

lemma parseStmt_eq_of_dispatch (rstmt : RawStmt) (ts : List ResTarget)
    (mk : List Output → Action) (hdis : rstmt.stmt.dispatch = some (ts, mk)) :
    parseStmt rstmt =
      match rstmt.stmt.reportedErr with
      | some e => .error (.stmt rstmt.stmtLocation e)
      | none =>
        match checkAction (mk (parseTargetList ts).1) with
        | some e => .error (.stmt rstmt.stmtLocation e)
        | none => .ok (mk (parseTargetList ts).1) := by
  cases hs : rstmt.stmt with
  | selectStmt l =>
    rw [hs] at hdis
    cases hdis
    simp only [parseStmt, hs, parseSelectStmt, StmtKind.reportedErr]
    cases (parseTargetList ts).2 <;> rfl
  | insertStmt l =>
    rw [hs] at hdis
    cases hdis
    simp only [parseStmt, hs, parseInsertStmt, StmtKind.reportedErr]
    cases (parseTargetList ts).2 <;> rfl
  | updateStmt l =>
    rw [hs] at hdis
    cases hdis
    simp only [parseStmt, hs, parseUpdateStmt, StmtKind.reportedErr]
  | deleteStmt l =>
    rw [hs] at hdis
    cases hdis
    simp only [parseStmt, hs, parseDeleteStmt, StmtKind.reportedErr]
    cases (parseTargetList ts).2 <;> rfl
  | other =>
    rw [hs] at hdis
    exact Option.noConfusion hdis

lemma parseStmt_other (rstmt : RawStmt) (h : rstmt.stmt = .other) :
    parseStmt rstmt = .error (.stmt rstmt.stmtLocation (.base .unsupportedStatement)) := by
  simp only [parseStmt, h]

lemma mk_getOutputs (rstmt : RawStmt) (ts : List ResTarget)
    (mk : List Output → Action) (hdis : rstmt.stmt.dispatch = some (ts, mk)) :
    ∀ outs, (mk outs).getOutputs = outs := by
  intro outs
  cases hs : rstmt.stmt <;> rw [hs] at hdis <;>
    first
      | exact Option.noConfusion hdis
      | (cases hdis; rfl)

lemma parseStmt_ok_inv_dispatch (r : RawStmt) (ts : List ResTarget)
    (mk : List Output → Action) (hdis : r.stmt.dispatch = some (ts, mk))
    (a : Action) (h : parseStmt r = .ok a) :
    checkAction a = none ∧ a.getOutputs = (parseTargetList ts).1 := by
  rw [parseStmt_eq_of_dispatch r ts mk hdis] at h
  cases hrep : r.stmt.reportedErr with
  | some e =>
    rw [hrep] at h
    exact Except.noConfusion h
  | none =>
    rw [hrep] at h
    cases hchk : checkAction (mk (parseTargetList ts).1) with
    | some e =>
      rw [hchk] at h
      exact Except.noConfusion h
    | none =>
      rw [hchk] at h
      cases h
      exact ⟨hchk, mk_getOutputs r ts mk hdis _⟩

lemma parseStmt_ok_inv (r : RawStmt) (a : Action) (h : parseStmt r = .ok a) :
    checkAction a = none ∧ ∃ ts, a.getOutputs = (parseTargetList ts).1 := by
  cases hs : r.stmt with
  | other =>
    rw [parseStmt_other r hs] at h
    exact Except.noConfusion h
  | selectStmt l =>
    obtain ⟨h1, h2⟩ := parseStmt_ok_inv_dispatch r l .select (by rw [hs]; rfl) a h
    exact ⟨h1, l, h2⟩
  | insertStmt l =>
    obtain ⟨h1, h2⟩ := parseStmt_ok_inv_dispatch r l .insert (by rw [hs]; rfl) a h
    exact ⟨h1, l, h2⟩
  | updateStmt l =>
    obtain ⟨h1, h2⟩ := parseStmt_ok_inv_dispatch r l .update (by rw [hs]; rfl) a h
    exact ⟨h1, l, h2⟩
  | deleteStmt l =>
    obtain ⟨h1, h2⟩ := parseStmt_ok_inv_dispatch r l .delete (by rw [hs]; rfl) a h
    exact ⟨h1, l, h2⟩

lemma reportedErr_of_dispatch_nil (rstmt : RawStmt) (mk : List Output → Action)
    (hdis : rstmt.stmt.dispatch = some ([], mk)) :
    rstmt.stmt.reportedErr = none := by
  cases hs : rstmt.stmt <;> rw [hs] at hdis <;>
    first
      | exact Option.noConfusion hdis
      | (injection hdis with h
         injection h with h1 h2
         subst h1
         rfl)

lemma parseStmtsAux_eq (stmts : List RawStmt) :
    ∀ acc : List Action × Option Err,
      parseStmtsAux acc stmts =
        (acc.1 ++ stmts.filterMap stmtOkOf,
          (stmts.filterMap stmtErrOf).foldl errJoin acc.2) := by
  induction stmts with
  | nil => intro acc; simp [parseStmtsAux]
  | cons r rest ih =>
    intro acc
    cases h : parseStmt r with
    | error e =>
      have hok : stmtOkOf r = none := by simp [stmtOkOf, h]
      have herr : stmtErrOf r = some e := by simp [stmtErrOf, h]
      simp only [parseStmtsAux, h, ih, List.filterMap_cons, hok, herr,
        List.foldl_cons]
    | ok a =>
      have hok : stmtOkOf r = some a := by simp [stmtOkOf, h]
      have herr : stmtErrOf r = none := by simp [stmtErrOf, h]
      simp only [parseStmtsAux, h, ih, List.filterMap_cons, hok, herr,
        List.append_assoc, List.singleton_append]

lemma parseFullTyped_ok_eq (p : PgqueryParse) (input : String)
    (stmts : List RawStmt) (hok : p input = .ok stmts) :
    ParseFullTyped p input =
      (stmts.filterMap stmtOkOf, joinAll (stmts.filterMap stmtErrOf)) := by
  rw [ParseFullTyped, hok]
  show parseStmtsAux ([], none) stmts = _
  rw [parseStmtsAux_eq]
  rfl

lemma parseFullTyped_mem_actions (p : PgqueryParse) (input : String) (a : Action)
    (ha : a ∈ (ParseFullTyped p input).1) : ∃ r, parseStmt r = .ok a := by
  cases hp : p input with
  | error msg =>
    rw [ParseFullTyped, hp] at ha
    exact absurd ha (List.not_mem_nil a)
  | ok stmts =>
    rw [parseFullTyped_ok_eq p input stmts hp] at ha
    obtain ⟨r, _, hr⟩ := List.mem_filterMap.mp ha
    refine ⟨r, ?_⟩
    unfold stmtOkOf at hr
    split at hr
    · rename_i a2 h2
      cases hr
      exact h2
    · exact Option.noConfusion hr

/-! The claims. -/

/-- C2: for every alias string, the number-suffix parser fails with
`ErrNamedWithoutNumberSuffix` when the string has no underscore, when the
last underscore is the final character, or when the segment after the last
underscore does not parse as an integer; it fails with
`ErrInvalidNumberSuffix` when the segment parses to an integer below 1; and
otherwise it returns that integer. -/
theorem numberedName_cases (name : String) (pre tail : List Char) :
    ('_' ∉ name.data → numberedName name = .error .namedWithoutNumberSuffix)
    ∧ (name.data = pre ++ '_' :: tail → '_' ∉ tail →
        ((tail = [] ∨ goAtoi ⟨tail⟩ = none) →
            numberedName name = .error .namedWithoutNumberSuffix)
        ∧ (∀ n : Int, goAtoi ⟨tail⟩ = some n →
            (n < 1 → numberedName name = .error .invalidNumberSuffix)
            ∧ (1 ≤ n → numberedName name = .ok n))) := by
  constructor
  · intro h
    unfold numberedName
    rw [(lastIndexOf_eq_none_iff name.data '_').mpr h]
  · intro hsplit htail
    have key := numberedName_eq_of_split name pre tail hsplit htail
    constructor
    · rintro (h0 | hga)
      · rw [key, if_pos h0]
      · by_cases h0 : tail = []
        · rw [key, if_pos h0]
        · rw [key, if_neg h0, hga]
    · intro n hga
      have h0 : tail ≠ [] := by
        intro hc
        subst hc
        exact Option.noConfusion hga
      constructor
      · intro hlt
        rw [key, if_neg h0, hga]
        show (if n < 1 then Except.error BaseErr.invalidNumberSuffix
          else Except.ok n) = _
        rw [if_pos hlt]
      · intro hge
        rw [key, if_neg h0, hga]
        show (if n < 1 then Except.error BaseErr.invalidNumberSuffix
          else Except.ok n) = _
        rw [if_neg (by omega)]

/-- Witness for C2: a well-suffixed alias and one without any underscore. -/
theorem numberedName_cases_witness :
    numberedName "id_12" = .ok 12
    ∧ numberedName "idx" = .error .namedWithoutNumberSuffix :=
  ⟨(((numberedName_cases "id_12" ['i', 'd'] ['1', '2']).2 (by decide) (by decide)).2
      12 (by decide)).2 (by decide),
    (numberedName_cases "idx" [] []).1 (by decide)⟩

/-- C10: the trailing segment is parsed like `strconv.Atoi`, base 10 with an
optional sign: `id_+2` yields 2 and `id_007` yields 7, while `id_-3` parses
to a value below 1 and fails with `ErrInvalidNumberSuffix`, not with
`ErrNamedWithoutNumberSuffix`. -/
theorem numberedName_atoi_segments :
    numberedName "id_+2" = .ok 2
    ∧ numberedName "id_007" = .ok 7
    ∧ numberedName "id_-3" = .error .invalidNumberSuffix :=
  ⟨rfl, rfl, rfl⟩

/-- C3: for an output node that passes the alias and number-suffix checks
and carries a cast, one name segment yields a `TypeRef` without schema, two
segments yield a schema-qualified `TypeRef`, and any other segment count
fails with `ErrTypeCastInvalid` carrying the alias and the segment count. -/
theorem parseResultTarget_cast_shapes (rtgt : ResTarget) (num : Int)
    (hname : rtgt.name ≠ "") (hnum : numberedName rtgt.name = .ok num) :
    (∀ tn, rtgt.cast = some [tn] →
        parseResultTarget rtgt = .ok ⟨num, rtgt.name, ⟨none, tn⟩⟩)
    ∧ (∀ schemaStr tn, rtgt.cast = some [schemaStr, tn] →
        parseResultTarget rtgt = .ok ⟨num, rtgt.name, ⟨some schemaStr, tn⟩⟩)
    ∧ (∀ parts, rtgt.cast = some parts → parts.length ≠ 1 → parts.length ≠ 2 →
        parseResultTarget rtgt = .error (.resTarget rtgt.location
          (.base (.typeCastInvalid rtgt.name parts.length)))) := by
  refine ⟨?_, ?_, ?_⟩
  · intro tn hc
    simp only [parseResultTarget, if_neg hname, hnum, hc]
  · intro schemaStr tn hc
    simp only [parseResultTarget, if_neg hname, hnum, hc]
  · intro parts hc h1 h2
    simp only [parseResultTarget, if_neg hname, hnum, hc]
    rcases parts with _ | ⟨a, _ | ⟨b, _ | ⟨c, rest⟩⟩⟩
    · rfl
    · simp at h1
    · simp at h2
    · rfl

/-- Witness for C3: one- and two-segment casts and a three-segment cast. -/
theorem parseResultTarget_cast_shapes_witness :
    parseResultTarget ⟨"id_1", 7, some ["pg_catalog", "int4"]⟩ =
        .ok ⟨1, "id_1", ⟨some "pg_catalog", "int4"⟩⟩
    ∧ parseResultTarget ⟨"id_1", 7, some ["a", "b", "c"]⟩ =
        .error (.resTarget 7 (.base (.typeCastInvalid "id_1" 3))) :=
  ⟨(parseResultTarget_cast_shapes ⟨"id_1", 7, some ["pg_catalog", "int4"]⟩ 1
      (by decide) rfl).2.1 "pg_catalog" "int4" rfl,
    (parseResultTarget_cast_shapes ⟨"id_1", 7, some ["a", "b", "c"]⟩ 1
      (by decide) rfl).2.2 ["a", "b", "c"] rfl (by decide) (by decide)⟩

/-- C4: the result-target parser checks alias presence first (failing with
`ErrNoColumnAliasUsed` at the node's offset, cast or no cast), then the
number suffix (propagating the suffix error at the node's offset), then cast
presence (failing with `ErrColumnWithoutCast` carrying the alias). -/
theorem parseResultTarget_check_order (rtgt : ResTarget) :
    (rtgt.name = "" →
        parseResultTarget rtgt =
          .error (.resTarget rtgt.location (.base .noColumnAliasUsed)))
    ∧ (∀ e, rtgt.name ≠ "" → numberedName rtgt.name = .error e →
        parseResultTarget rtgt = .error (.resTarget rtgt.location (.base e)))
    ∧ (∀ n : Int, rtgt.name ≠ "" → numberedName rtgt.name = .ok n →
        rtgt.cast = none →
        parseResultTarget rtgt = .error (.resTarget rtgt.location
          (.base (.columnWithoutCast rtgt.name)))) := by
  refine ⟨?_, ?_, ?_⟩
  · intro h
    simp only [parseResultTarget, if_pos h]
  · intro e hname herr
    simp only [parseResultTarget, if_neg hname, herr]
  · intro n hname hok hcast
    simp only [parseResultTarget, if_neg hname, hok, hcast]

/-- Witness for C4: a missing alias despite a cast, a bad suffix, and a
missing cast. -/
theorem parseResultTarget_check_order_witness :
    parseResultTarget ⟨"", 5, some ["text"]⟩ =
        .error (.resTarget 5 (.base .noColumnAliasUsed))
    ∧ parseResultTarget ⟨"id1", 6, some ["text"]⟩ =
        .error (.resTarget 6 (.base .namedWithoutNumberSuffix))
    ∧ parseResultTarget ⟨"id_1", 7, none⟩ =
        .error (.resTarget 7 (.base (.columnWithoutCast "id_1"))) :=
  ⟨(parseResultTarget_check_order _).1 rfl,
    (parseResultTarget_check_order _).2.1 _ (by decide) rfl,
    (parseResultTarget_check_order _).2.2 1 (by decide) rfl rfl⟩

/-- C5: the duplicate-number validator succeeds exactly when all `Number`
values are pairwise distinct, and on the first output whose number was
already seen it fails with `ErrDuplicateNumberSuffix` naming the repeated
number and the name of the output that first claimed it. -/
theorem checkAction_spec (a : Action) :
    (checkAction a = none ↔ (a.getOutputs.map Output.number).Nodup)
    ∧ (∀ pre o rest p, a.getOutputs = pre ++ o :: rest →
        (pre.map Output.number).Nodup → p ∈ pre → p.number = o.number →
        checkAction a = some (.base (.duplicateNumberSuffix o.number p.name))) :=
  ⟨checkAction_eq_none_iff a,
    fun pre o rest p h1 h2 h3 h4 => checkAction_first_dup a pre rest o p h1 h2 h3 h4⟩

/-- Witness for C5: `id_1` and `name_1` collide on number 1 and the error
names the first claimant. -/
theorem checkAction_spec_witness :
    checkAction (.select [⟨1, "id_1", ⟨none, "text"⟩⟩, ⟨1, "name_1", ⟨none, "uuid"⟩⟩])
      = some (.base (.duplicateNumberSuffix 1 "id_1")) :=
  (checkAction_spec _).2 [⟨1, "id_1", ⟨none, "text"⟩⟩] ⟨1, "name_1", ⟨none, "uuid"⟩⟩ []
    ⟨1, "id_1", ⟨none, "text"⟩⟩ rfl (by decide) (by decide) rfl

/-- C1: the claim fails on the code for Update.  Go `parseUpdateStmt` joins
its column failures into `err` but then ends with `return action, nil`, so an
UPDATE whose RETURNING list has a failing item is not discarded: `parseStmt`
returns a partial UpdateAction holding exactly the successfully parsed subset
of outputs, and the column failure is reported nowhere.  The first conjunct
states the general loss (an update statement never reports a column error);
the second evaluates the code at a failing input: the first RETURNING item
has no alias, yet the statement succeeds with the one surviving output. -/
theorem parseStmt_update_partial_action :
    (∀ returningList, (parseUpdateStmt returningList).2 = none)
    ∧ parseStmt ⟨.updateStmt [⟨"", 25, none⟩, ⟨"ok_1", 30, some ["text"]⟩], 0⟩
        = .ok (.update [⟨1, "ok_1", ⟨none, "text"⟩⟩]) :=
  ⟨fun _ => rfl, rfl⟩

/-- C6: a grammar-level parse failure is fatal for the whole call: no
actions and one wrapped error, with no partial results. -/
theorem parseFullTyped_grammar_failure (p : PgqueryParse) (input msg : String)
    (h : p input = .error msg) :
    ParseFullTyped p input = ([], some (.base (.grammarFailure msg))) := by
  rw [ParseFullTyped, h]

/-- Witness for C6: an oracle that reports a syntax error. -/
theorem parseFullTyped_grammar_failure_witness :
    ParseFullTyped (fun _ => .error "syntax error at or near") "SELEC 1"
      = ([], some (.base (.grammarFailure "syntax error at or near"))) :=
  parseFullTyped_grammar_failure _ _ _ rfl

/-- C7: the claim fails on the code.  Because Go `parseUpdateStmt` ends with
`return action, nil`, an accepted buffer holding an UPDATE whose single
RETURNING item fails still contributes an Action for that not-fully-valid
statement, and its column failure never reaches the aggregate: the call
returns one action and an absent aggregate, contradicting both "exactly one
Action per fully-valid statement" and "every per-statement failure is joined
into one aggregate". -/
theorem parseFullTyped_update_error_lost :
    ParseFullTyped (fun _ => .ok [⟨.updateStmt [⟨"", 25, none⟩], 0⟩]) "u"
      = ([.update []], none) := rfl

/-- C8: a supported statement with an empty output-bearing list parses
successfully into an action with an empty outputs sequence. -/
theorem parseStmt_empty_output_list (rstmt : RawStmt)
    (mk : List Output → Action) (hdis : rstmt.stmt.dispatch = some ([], mk)) :
    parseStmt rstmt = .ok (mk []) ∧ (mk []).getOutputs = [] := by
  have hout := mk_getOutputs rstmt [] mk hdis []
  have hchk : checkAction (mk []) = none := by
    rw [checkAction, hout]
    rfl
  have hrep := reportedErr_of_dispatch_nil rstmt mk hdis
  refine ⟨?_, hout⟩
  rw [parseStmt_eq_of_dispatch rstmt [] mk hdis]
  simp only [hrep, parseTargetList, parseTargetListAux, hchk]

/-- Witness for C8: an INSERT without RETURNING. -/
theorem parseStmt_empty_output_list_witness :
    parseStmt ⟨.insertStmt [], 4⟩ = .ok (.insert [])
    ∧ (Action.insert []).getOutputs = [] :=
  parseStmt_empty_output_list ⟨.insertStmt [], 4⟩ .insert rfl

/-- C9: every action returned by the top-level entry point has pairwise
distinct output numbers, every output number is at least 1, and every
output's name is the full alias, still carrying the numeric suffix that
parses back to its number. -/
theorem parseFullTyped_action_invariants (p : PgqueryParse) (input : String)
    (a : Action) (ha : a ∈ (ParseFullTyped p input).1) :
    (a.getOutputs.map Output.number).Nodup
    ∧ ∀ o ∈ a.getOutputs, 1 ≤ o.number ∧ numberedName o.name = .ok o.number := by
  obtain ⟨r, hr⟩ := parseFullTyped_mem_actions p input a ha
  obtain ⟨hchk, ts, houts⟩ := parseStmt_ok_inv r a hr
  refine ⟨(checkAction_eq_none_iff a).mp hchk, ?_⟩
  intro o ho
  rw [houts] at ho
  obtain ⟨t, _, hok⟩ := parseTargetList_mem_ok ts o ho
  obtain ⟨hname, hnum, hpos⟩ := parseResultTarget_ok_inv t o hok
  refine ⟨hpos, ?_⟩
  rw [hname]
  exact hnum

/-- Witness for C9 on a returned select action. -/
theorem parseFullTyped_action_invariants_witness :
    ((Action.select [⟨1, "id_1", ⟨none, "text"⟩⟩]).getOutputs.map Output.number).Nodup
    ∧ ∀ o ∈ (Action.select [⟨1, "id_1", ⟨none, "text"⟩⟩]).getOutputs,
        1 ≤ o.number ∧ numberedName o.name = .ok o.number :=
  parseFullTyped_action_invariants
    (fun _ => .ok [⟨.selectStmt [⟨"id_1", 7, some ["text"]⟩], 0⟩]) "q"
    (.select [⟨1, "id_1", ⟨none, "text"⟩⟩]) (by decide)

end Pgproto
